import Mathlib

/-!
Verification of the tournament/battle state machine and the asset-eligibility
verifier of the story_book discord bot.

The definitions below are a shallow embedding of the TypeScript sources:

* `src/discord-bot/src/commands/battle.ts` — lobby registration and the
  tournament start gate;
* `src/discord-bot/src/logic/BattleManager.ts` — bracket generation, round
  processing and tournament termination;
* `src/discord-bot/src/logic/SolanaVerifier.ts` — wallet verification,
  collection-alias resolution and the name cache.

External effects (RPC calls, generative-AI calls, Discord sends, random
numbers) are modelled by explicit environment/oracle records: each fallible
call becomes an `Option`-valued field (`none` models a thrown/failed call), and
each call of `Math.random()` becomes a value drawn from an oracle stream.
JavaScript string primitives (`split`, `trim`, the base58 regex) are modelled
by structurally recursive Lean functions so every definition evaluates inside
the kernel.
-/

namespace StoryBook

/-! ## JavaScript string primitives -/

/-- Characters treated as whitespace by the JavaScript trim used on config items. -/
def isJsWs (c : Char) : Bool := c = ' ' || c = '\t' || c = '\n' || c = '\r'

/-- Model of JavaScript String.prototype.trim. -/
def jsTrim (s : String) : String :=
  String.mk (((s.data.dropWhile isJsWs).reverse.dropWhile isJsWs).reverse)

/-- Accumulator pass of the comma split. -/
def splitCommaAux (acc : List Char) : List Char → List (List Char)
  | [] => [acc.reverse]
  | c :: rest =>
    if c = ',' then acc.reverse :: splitCommaAux [] rest
    else splitCommaAux (c :: acc) rest

/-- Model of the JavaScript split on a comma, as used on the collection config strings. -/
def jsSplitComma (s : String) : List String :=
  (splitCommaAux [] s.data).map String.mk

/-- The base58 alphabet of the key-recognition regex in SolanaVerifier.ts. -/
def base58Chars : List Char :=
  "123456789ABCDEFGHJKLMNPQRSTUVWXYZabcdefghijkmnopqrstuvwxyz".data

/-- Model of the regex matching canonical base58 key strings of length 32 to 44. -/
def looksLikeKey (s : String) : Bool :=
  decide (32 ≤ s.data.length) && decide (s.data.length ≤ 44)
    && s.data.all (fun c => base58Chars.contains c)

/-- Truthiness of an optional string, as JavaScript evaluates it in a condition:
 absent and empty strings are falsy. -/
def truthyStr : Option String → Bool
  | none => false
  | some s => !(s == "")

/-! ## Lobby model (battle.ts) -/

/-- Lobby lifecycle status. -/
inductive LobbyStatus
  | OPEN
  | IN_PROGRESS
  | COMPLETED
deriving DecidableEq, Repr

/-- Registration mode of a lobby. -/
inductive RegistrationType
  | UPLOAD
  | PFP
  | WALLET
deriving DecidableEq, Repr

/-- Team tag used in gang mode. -/
inductive Team
  | A
  | B
deriving DecidableEq, Repr

/-- Team configuration: display name and required collection id. -/
structure TeamConfig where
  name : String
  collectionId : String
deriving DecidableEq, Repr

/-- Lobby settings as stored in the Lobby interface of battle.ts. -/
structure LobbySettings where
  arena : String
  genre : String
  registrationType : RegistrationType
  teamA : Option TeamConfig
  teamB : Option TeamConfig
deriving DecidableEq, Repr

/-- A registered lobby player (Player interface of battle.ts). -/
structure Player where
  id : String
  username : String
  avatarUrl : String
  isOnline : Bool
  walletAddress : Option String
  nftAttributes : Option (List (String × String))
  team : Option Team
deriving DecidableEq, Repr

/-- An open lobby (Lobby interface of battle.ts). -/
structure Lobby where
  hostId : String
  channelId : String
  players : List Player
  maxPlayers : Nat
  status : LobbyStatus
  settings : LobbySettings
deriving DecidableEq, Repr

/-- Precondition checks run by the join subcommand before its first await:
 open-lobby check, duplicate check, then the capacity check (battle.ts lines
 262-277). Returns the rejection message, or none when the join may proceed to
 validation. The later push into the player list is a separate step,
 `joinAdd`, because the code suspends on awaited calls between the two. -/
def joinCheck (lobby : Lobby) (userId : String) : Option String :=
  if lobby.status ≠ LobbyStatus.OPEN then some "No open lobby in this channel."
  else if (lobby.players.find? (fun p => p.id == userId)).isSome then
    some "You are already registered!"
  else if lobby.maxPlayers ≤ lobby.players.length then some "Lobby is full!"
  else none

/-- The push of the validated player into the lobby (battle.ts line 386). -/
def joinAdd (lobby : Lobby) (player : Player) : Lobby :=
  { lobby with players := lobby.players ++ [player] }

/-- Valid player counts for gang mode (battle.ts lines 493 and 730). -/
def validGangCounts : List Nat := [4, 8, 16]

/-- State effect of startBattleLogic on the lobby: it transitions to IN_PROGRESS
 (the lobby is then handed to a BattleManager and dropped from the registry). -/
def startBattleLogicL (lobby : Lobby) : Lobby :=
  { lobby with status := LobbyStatus.IN_PROGRESS }

/-- The start gate of the start subcommand (battle.ts lines 484-516), given that
 the lobby exists and the caller is the host: reject with a message leaving the
 lobby untouched, or hand the lobby to startBattleLogic. -/
def battleStart (lobby : Lobby) : Lobby × Option String :=
  if lobby.players.length < 2 then (lobby, some "Need at least 2 players to start.")
  else
    let isGangMode := lobby.settings.genre == "GANG_MODE"
    if isGangMode then
      if validGangCounts.contains lobby.players.length then (startBattleLogicL lobby, none)
      else (lobby, some "Gang Mode Requires 4, 8, or 16 Players!")
    else
      if lobby.players.length < 2 || 24 < lobby.players.length
          || !(lobby.players.length % 2 == 0) then
        (lobby, some "Even Brackets Enforced!")
      else (startBattleLogicL lobby, none)

/-- Legal contestant counts in the specification's words: team (gang) mode allows
 exactly the counts 4, 8, 16; non-team mode allows any even count within 2..24.
 Stated from the claim, for comparison against `battleStart`. -/
def legalStartCount (isGangMode : Bool) (n : Nat) : Bool :=
  if isGangMode then validGangCounts.contains n
  else decide (2 ≤ n) && decide (n ≤ 24) && (n % 2 == 0)

/-! ## Eligibility verifier model (SolanaVerifier.ts) -/

/-- A creator entry of on-chain token metadata. -/
structure Creator where
  address : String
  verified : Bool
deriving DecidableEq, Repr

/-- On-chain metadata of a digital asset, as read through fetchDigitalAsset:
 the collection field carries its key and verified flag when present. -/
structure AssetMeta where
  name : String
  symbol : String
  uri : String
  collection : Option (String × Bool)
  creators : Option (List Creator)
deriving DecidableEq, Repr

/-- Off-chain JSON metadata fetched from the asset uri. -/
structure JsonMeta where
  image : String
  attributes : Option (List (String × String))
deriving DecidableEq, Repr

/-- A parsed token account of the wallet. -/
structure TokenAccount where
  uiAmount : Int
  decimals : Nat
  mint : String
deriving DecidableEq, Repr

/-- The NFTData record returned by the verifier. -/
structure NFTData where
  name : String
  image : String
  attributes : List (String × String)
  mint : String
  collectionName : String
  collectionGroup : Option String
deriving DecidableEq, Repr

/-- Environment of external services consumed by the verifier. A `none` result
 models a thrown or failed call; `configFails` models the config store
 rejecting (which the top-level catch absorbs). -/
structure ChainEnv where
  getConfig : String → Option String
  configFails : Bool
  fetchAsset : String → Option AssetMeta
  fetchJson : String → Option JsonMeta
  howrareFirstMint : String → Option String
  getTokenAccounts : String → Option (List TokenAccount)

/-- Lookup in an insertion-ordered string map (JavaScript Map.get). -/
def mapGet (m : List (String × String)) (k : String) : Option String :=
  (m.find? (fun e => e.1 == k)).map (fun e => e.2)

/-- Key test in an insertion-ordered string map (JavaScript Map.has). -/
def mapHas (m : List (String × String)) (k : String) : Bool :=
  (mapGet m k).isSome

/-- Insertion-ordered update (JavaScript Map.set): overwrite in place or append. -/
def mapSet (m : List (String × String)) (k v : String) : List (String × String) :=
  if m.any (fun e => e.1 == k) then m.map (fun e => if e.1 == k then (k, v) else e)
  else m ++ [(k, v)]

/-- Hardcoded collection names (SolanaVerifier.ts KNOWN_COLLECTIONS). -/
def KNOWN_COLLECTIONS : List (String × String) :=
  [("6BJuVsENAMUEvR9ftviSVb5JokS12pF3FF2EnExdc2UD", "Gainz")]

/-- Abbreviated address used as fallback display name. -/
def shortAddr (g : String) : String :=
  String.mk (g.data.take 4) ++ "..." ++ String.mk (g.data.drop (g.data.length - 4))

/-- Drop one leading slash, as the slug-cleaning regex replace does. -/
def stripLeadingSlash (s : String) : String :=
  match s.data with
  | '/' :: rest => String.mk rest
  | _ => s

/-- Resolution of a HowRare slug to canonical collection and creator addresses
 (SolanaVerifier.ts resolveCollectionFromSlug): look up the collection's first
 item, fetch its on-chain data, and collect its verified collection key and its
 verified first creator. Every failure path returns the empty list. -/
def resolveCollectionFromSlug (env : ChainEnv) (slug : String) : List String :=
  let cleanSlug := jsTrim (stripLeadingSlash slug)
  if cleanSlug == "" then []
  else
    match env.howrareFirstMint cleanSlug with
    | none => []
    | some mintAddress =>
      match env.fetchAsset mintAddress with
      | none => []
      | some asset =>
        let ids : List String :=
          match asset.collection with
          | some (key, true) => [key]
          | _ => []
        ids ++
          match asset.creators with
          | some (firstCreator :: _) =>
            if firstCreator.verified then [firstCreator.address] else []
          | _ => []

/-- Insert into the group set preserving first-insertion order (JavaScript Set.add). -/
def insertUnique (l : List String) (x : String) : List String :=
  if l.contains x then l else l ++ [x]

/-- The group set assembled by getAvailableCollections from the server and
 partner config strings: trimmed, non-empty items in first-insertion order. -/
def collectGroups (env : ChainEnv) : List String :=
  let serverCollection := env.getConfig "server_collection"
  let partnerCollectionsStr := env.getConfig "partner_collections"
  let enablePartners := env.getConfig "enable_partners" == some "true"
  let g1 :=
    match serverCollection with
    | some sc => ((jsSplitComma sc).map jsTrim).filter (fun s => !(s == ""))
    | none => []
  let g2 :=
    if enablePartners then
      match partnerCollectionsStr with
      | some pc => ((jsSplitComma pc).map jsTrim).filter (fun s => !(s == ""))
      | none => []
    else []
  (g1 ++ g2).foldl insertUnique []

/-- Loop body of getAvailableCollections over one group: consult the hardcoded
 list, then the name cache, then fetch the on-chain name of key-shaped groups
 (falling back to an abbreviated address), caching what was fetched; non-key
 groups name themselves. The accumulator carries the label map and the cache. -/
def gaStep (env : ChainEnv) (acc : List (String × String) × List (String × String))
    (g : String) : List (String × String) × List (String × String) :=
  match mapGet KNOWN_COLLECTIONS g with
  | some n => (mapSet acc.1 g n, acc.2)
  | none =>
    match mapGet acc.2 g with
    | some n => (mapSet acc.1 g n, acc.2)
    | none =>
      if looksLikeKey g then
        match env.fetchAsset g with
        | some asset => (mapSet acc.1 g asset.name, mapSet acc.2 g asset.name)
        | none => (mapSet acc.1 g (shortAddr g), mapSet acc.2 g (shortAddr g))
      else (mapSet acc.1 g g, mapSet acc.2 g g)

/-- getAvailableCollections with the collection-name cache threaded explicitly
 (the repo keeps it in the module-level collectionNameCache map). Returns the
 label map together with the cache as left after the call. -/
def getAvailableCollections (env : ChainEnv) (cache : List (String × String)) :
    List (String × String) × List (String × String) :=
  (collectGroups env).foldl (gaStep env) ([], cache)

/-- Skip test of processConfigItem: a config item is skipped when a target group
 is requested (truthy) and this item's label differs from it. -/
def skipForTarget (target : Option String) (label : String) : Bool :=
  match target with
  | some t => !(t == "") && !(label == t)
  | none => false

/-- processConfigItem of verifyWalletAndGetNFTs: trim, skip empties and
 non-target labels, register key-shaped items directly, otherwise resolve the
 item as a slug and register every resolved id under the item's label. -/
def processConfigItem (env : ChainEnv) (target : Option String)
    (vc : List (String × String)) (item label : String) : List (String × String) :=
  let s := jsTrim item
  if s.data.length == 0 then vc
  else if skipForTarget target label then vc
  else if looksLikeKey s then mapSet vc s label
  else (resolveCollectionFromSlug env s).foldl (fun m id0 => mapSet m id0 label) vc

/-- The valid-collection map built at the top of verifyWalletAndGetNFTs from the
 server and (when enabled) partner config strings; each item is its own label. -/
def buildValidCollections (env : ChainEnv) (target : Option String) :
    List (String × String) :=
  let serverCollection := env.getConfig "server_collection"
  let partnerCollectionsStr := env.getConfig "partner_collections"
  let enablePartners := env.getConfig "enable_partners" == some "true"
  let vc : List (String × String) := []
  let vc :=
    if truthyStr serverCollection then
      (jsSplitComma (serverCollection.getD "")).foldl
        (fun m item => processConfigItem env target m item item) vc
    else vc
  if enablePartners && truthyStr partnerCollectionsStr then
    (jsSplitComma (partnerCollectionsStr.getD "")).foldl
      (fun m item => processConfigItem env target m item item) vc
  else vc

/-- The creator loop of the match check: first verified creator whose address is
 a key of the valid-collection map. -/
def firstCreatorMatch (vc : List (String × String)) : List Creator → Option String
  | [] => none
  | c :: rest =>
    if c.verified && mapHas vc c.address then mapGet vc c.address
    else firstCreatorMatch vc rest

/-- The verified-collection (MCC) check of the match: a verified collection
 link whose key is registered in the valid-collection map. -/
def matchMCC (vc : List (String × String)) (a : AssetMeta) : Option String :=
  match a.collection with
  | some (key, true) => if mapHas vc key then mapGet vc key else none
  | _ => none

/-- The matched group of an asset: anything under the allow-any policy,
 otherwise the verified collection link, otherwise the first verified creator
 registered in the valid-collection map. -/
def matchedGroupOf (vc : List (String × String)) (allowAny : Bool)
    (a : AssetMeta) : Option String :=
  if allowAny then some "Any"
  else
    match matchMCC vc a with
    | some g => some g
    | none =>
      match a.creators with
      | some creators => firstCreatorMatch vc creators
      | none => none

/-- The per-mint body of the batched verification loop: fetch the asset, match
 it against the valid collections (or accept anything under the allow-any
 policy), fetch its JSON metadata, and build the NFTData record. Any failed
 fetch makes the holding silently skipped, as the catch around the body does. -/
def checkMint (env : ChainEnv) (vc : List (String × String)) (allowAny : Bool)
    (mint : String) : Option NFTData :=
  match env.fetchAsset mint with
  | none => none
  | some asset =>
    match matchedGroupOf vc allowAny asset with
    | none => none
    | some _ =>
      match env.fetchJson asset.uri with
      | none => none
      | some json =>
        some { name := asset.name, image := json.image,
               attributes := json.attributes.getD [], mint := mint,
               collectionName := asset.symbol,
               collectionGroup := matchedGroupOf vc allowAny asset }

/-- The fixed batch width of the rate-limited verification loop. -/
def BATCH_SIZE : Nat := 3

/-- The slicing loop of verifyWalletAndGetNFTs: consecutive slices of width
 BATCH_SIZE, the last possibly shorter. -/
def batches : List α → List (List α)
  | [] => []
  | a :: b :: c :: rest => [a, b, c] :: batches rest
  | l => [l]

/-- The single-unit filter of verifyWalletAndGetNFTs: token accounts holding
 exactly one unit with zero decimals, projected to their mints. -/
def singleUnitMints (tokenAccounts : List TokenAccount) : List String :=
  (tokenAccounts.filter (fun t => t.uiAmount == 1 && t.decimals == 0)).map
    (fun t => t.mint)

/-- verifyWalletAndGetNFTs: build the valid-collection map, compute the
 allow-any flag, list the wallet's single-unit holdings, then check the
 holdings batch by batch, collecting the eligible records. Its whole body runs
 inside one try whose catch returns the empty list, modelled by the
 `configFails` and `getTokenAccounts` failure outcomes. -/
def verifyWalletAndGetNFTs (env : ChainEnv) (walletAddress : String)
    (target : Option String) : List NFTData :=
  if env.configFails then []
  else
    let vc := buildValidCollections env target
    let allowAny := vc.isEmpty && !(truthyStr target)
    match env.getTokenAccounts walletAddress with
    | none => []
    | some tokenAccounts =>
      let nftMints := singleUnitMints tokenAccounts
      if nftMints.isEmpty then []
      else ((batches nftMints).map (fun b => b.filterMap (checkMint env vc allowAny))).flatten

/-! ## Battle manager model (BattleManager.ts)

The BattleManager keeps its players in a Map keyed by player id, and the match
queue holds references into that map; mutating a queued player mutates the map
entry. The embedding therefore stores the player pool as an id-keyed list and
the queue as pairs of ids, and all mutations go through the pool. Randomness
(the bracket shuffle and the coin-flip winner), the generative calls and the
possibility of a match step throwing are drawn from an `Oracle`, indexed by the
count of processRound invocations so far, so every real execution corresponds
to some oracle. -/

/-- Player status in a battle. -/
inductive PStatus
  | ALIVE
  | ELIMINATED
  | WINNER
deriving DecidableEq, Repr

/-- Gender tag of a battle player (addPlayer always assigns Male). -/
inductive Gender
  | Male
  | Female
deriving DecidableEq, Repr

/-- A battle participant (BattlePlayer interface of BattleManager.ts). -/
structure BattlePlayer where
  id : Nat
  username : String
  avatarUrl : String
  walletAddress : Option String
  gender : Gender
  status : PStatus
  roundWins : Nat
deriving DecidableEq, Repr

/-- A recorded match result (RoundResult interface of BattleManager.ts). -/
structure RoundResult where
  roundNumber : Nat
  winnerId : Nat
  loserId : Nat
  narrative : String
  imageUrl : String
  headToHeadUrl : String
deriving DecidableEq, Repr

/-- Battle lifecycle status. -/
inductive MStatus
  | WAITING
  | IN_PROGRESS
  | COMPLETED
deriving DecidableEq, Repr

/-- Battle settings (BattleSettings interface of BattleManager.ts). -/
structure BattleSettings where
  arena : String
  genre : String
  style : String
deriving DecidableEq, Repr

/-- The mutable state of a BattleManager: the player pool (the Map's values in
 insertion order), the pending match queue as id pairs, the per-match round
 counter, the match history, the lifecycle status, and the champion id the
 manager announces in endBattle (the output of the finale). -/
structure BattleState where
  players : List BattlePlayer
  matchQueue : List (Nat × Nat)
  round : Nat
  history : List RoundResult
  status : MStatus
  settings : BattleSettings
  announcedWinnerId : Option Nat
deriving DecidableEq, Repr

/-- Oracle for the effectful parts of a battle, indexed by the processRound
 invocation count: the Fisher-Yates draws of a bracket built in that
 invocation, the winner coin flip, whether the match body throws before the
 resolution step, and the outcomes of the three generative calls (none models
 a thrown call; a pair is the mime type and payload of a returned image). -/
structure Oracle where
  rand : Nat → Nat → Nat
  coin : Nat → Bool
  throws : Nat → Bool
  textGen : Nat → Option String
  imgGen : Nat → Option (String × String)
  h2hGen : Nat → Option (String × String)

/-- Positional swap of two list entries, as the destructuring swap of the
 shuffle does; indices out of range leave the list unchanged. -/
def listSwap (l : List α) (i j : Nat) : List α :=
  match l.get? i, l.get? j with
  | some a, some b => (l.set i b).set j a
  | _, _ => l

/-- The descending loop of the Fisher-Yates shuffle: at index i+1 swap with a
 random index in 0..i+1 drawn from the oracle stream. -/
def fisherYatesAux (rand : Nat → Nat) : Nat → List α → List α
  | 0, l => l
  | i + 1, l => fisherYatesAux rand i (listSwap l (i + 1) (rand (i + 1) % (i + 2)))

/-- The in-place shuffle of generateBracket. -/
def fisherYates (rand : Nat → Nat) (l : List α) : List α :=
  fisherYatesAux rand (l.length - 1) l

/-- The pairing loop of generateBracket: consecutive pairs; with an odd count
 the last element is left out of the queue (the implicit bye). -/
def pairUp : List α → List (α × α)
  | [] => []
  | [_] => []
  | a :: b :: rest => (a, b) :: pairUp rest

/-- Project a list of player pairs to id pairs, as the queue stores map keys. -/
def toIdPairs (prs : List (BattlePlayer × BattlePlayer)) : List (Nat × Nat) :=
  prs.map (fun pq => (pq.1.id, pq.2.id))

/-- Flatten a pairing list into the list of its members, in queue order. -/
def flatPairs : List (α × α) → List α
  | [] => []
  | (a, b) :: rest => a :: b :: flatPairs rest

/-- The ALIVE projection of the player pool, in pool order. -/
def aliveFilter (ps : List BattlePlayer) : List BattlePlayer :=
  ps.filter (fun p => p.status == PStatus.ALIVE)

/-- generateBracket: filter the alive players, shuffle them, pair them up
 consecutively. Only the queue is produced; the pool is untouched. -/
def generateBracket (rand : Nat → Nat) (ps : List BattlePlayer) : List (Nat × Nat) :=
  toIdPairs (pairUp (fisherYates rand (aliveFilter ps)))

/-- State-level bracket build: replace the match queue with a fresh bracket. -/
def buildBracket (rand : Nat → Nat) (st : BattleState) : BattleState :=
  { st with matchQueue := generateBracket rand st.players }

/-- Set the status of the pool entry with the given id (reference mutation of a
 map value, keyed by id). -/
def setStatusById (ps : List BattlePlayer) (i : Nat) (s : PStatus) : List BattlePlayer :=
  ps.map (fun p => if p.id = i then { p with status := s } else p)

/-- Increment the round-win counter of the pool entry with the given id. -/
def addWinById (ps : List BattlePlayer) (i : Nat) : List BattlePlayer :=
  ps.map (fun p => if p.id = i then { p with roundWins := p.roundWins + 1 } else p)

/-- Data-url construction used for every returned inline image. -/
def mkDataUrl (mime data : String) : String :=
  "data:" ++ mime ++ ";base64," ++ data

/-- generateActionSequence: the narrative falls back to a fixed placeholder
 when the text call throws, and to a second placeholder when the call returns
 but yields empty text; a failed image call yields the empty url. -/
def generateActionSequence (textRes : Option String) (imgRes : Option (String × String)) :
    String × String :=
  let narrative :=
    match textRes with
    | none => "The fighters clash!"
    | some t => if t == "" then "The battle rages on!" else t
  let imageUrl :=
    match imgRes with
    | none => ""
    | some md => mkDataUrl md.1 md.2
  (narrative, imageUrl)

/-- generateHeadToHead: the face-off image, or the empty url on failure. -/
def generateHeadToHead (h2hRes : Option (String × String)) : String :=
  match h2hRes with
  | none => ""
  | some md => mkDataUrl md.1 md.2

/-- endBattle: mark the battle COMPLETED and announce the champion when one was
 passed in. No player status is modified here. -/
def endBattle (st : BattleState) (winner : Option BattlePlayer) : BattleState :=
  { st with status := MStatus.COMPLETED,
            announcedWinnerId := winner.map (fun w => w.id) }

/-- The shift-and-execute part of processRound: pop the next pairing; if the
 match body throws, the catch force-eliminates the second contestant and the
 loop continues; otherwise run the generative calls, flip the winner coin,
 update the winner's counter and the loser's status, record the match, advance
 the round counter, and continue. The boolean is true when another
 processRound invocation is scheduled. -/
def runMatch (o : Oracle) (k : Nat) (st : BattleState) : BattleState × Bool :=
  match st.matchQueue with
  | [] => (st, false)
  | (p1, p2) :: rest =>
    let st1 := { st with matchQueue := rest }
    if o.throws k then
      ({ st1 with players := setStatusById st1.players p2 PStatus.ELIMINATED }, true)
    else
      let headToHeadUrl := generateHeadToHead (o.h2hGen k)
      let na := generateActionSequence (o.textGen k) (o.imgGen k)
      let winnerId := if o.coin k then p1 else p2
      let loserId := if o.coin k then p2 else p1
      let pool := setStatusById (addWinById st1.players winnerId) loserId PStatus.ELIMINATED
      ({ st1 with
          players := pool,
          history := st1.history ++
            [{ roundNumber := st1.round, winnerId := winnerId, loserId := loserId,
               narrative := na.1, imageUrl := na.2, headToHeadUrl := headToHeadUrl }],
          round := st1.round + 1 }, true)

/-- One invocation of processRound: with an empty queue, either end the battle
 (one or zero survivors) or rebuild the bracket — with the safety net that
 forges a match from the first two alive players if the fresh bracket is
 empty — and then run the next match from the queue. -/
def processRound (o : Oracle) (k : Nat) (st : BattleState) : BattleState × Bool :=
  if st.matchQueue.isEmpty then
    let alivePlayers := aliveFilter st.players
    if alivePlayers.length = 1 then
      (endBattle st alivePlayers.head?, false)
    else if alivePlayers.length = 0 then
      (endBattle st none, false)
    else
      let stb := buildBracket (o.rand k) st
      let stb :=
        if stb.matchQueue.isEmpty && decide (1 < alivePlayers.length) then
          match alivePlayers with
          | a :: b :: _ => { stb with matchQueue := [(a.id, b.id)] }
          | _ => stb
        else stb
      runMatch o k stb
  else runMatch o k st

/-- The processRound recursion (setTimeout chain), bounded by fuel; the oracle
 index advances by one per invocation. -/
def runRounds (o : Oracle) : Nat → Nat → BattleState → BattleState
  | 0, _, st => st
  | fuel + 1, k, st =>
    let r := processRound o k st
    if r.2 then runRounds o fuel (k + 1) r.1 else r.1

/-- startBattle: transition to IN_PROGRESS, set the round counter to 1, build
 the initial bracket, then run the processRound chain. -/
def startBattle (o : Oracle) (fuel : Nat) (st : BattleState) : BattleState :=
  let st1 := { st with status := MStatus.IN_PROGRESS, round := 1 }
  runRounds o fuel 1 (buildBracket (o.rand 0) st1)

/-- addPlayer: register a participant as ALIVE with zero wins and the default
 gender; an existing entry with the same id is replaced (Map.set). -/
def addPlayer (st : BattleState) (id : Nat) (username avatarUrl : String)
    (walletAddress : Option String) : BattleState :=
  let player : BattlePlayer :=
    { id := id, username := username, avatarUrl := avatarUrl,
      walletAddress := walletAddress, gender := Gender.Male,
      status := PStatus.ALIVE, roundWins := 0 }
  if st.players.any (fun p => p.id = id) then
    { st with players := st.players.map (fun p => if p.id = id then player else p) }
  else
    { st with players := st.players ++ [player] }

/-- Count the pool entries holding a given status. -/
def countStatus (ps : List BattlePlayer) (s : PStatus) : Nat :=
  ps.countP (fun p => p.status == s)

/-- Number of ALIVE pool entries. -/
def aliveCount (ps : List BattlePlayer) : Nat :=
  countStatus ps PStatus.ALIVE

/-- A fresh BattleManager state over a given pool (constructor state with the
 players added). -/
def initBattleState (ps : List BattlePlayer) (settings : BattleSettings) : BattleState :=
  { players := ps, matchQueue := [], round := 0, history := [],
    status := MStatus.WAITING, settings := settings, announcedWinnerId := none }

/-- Well-formedness of the pending queue relative to the pool: queued ids are
 pairwise distinct and each references an ALIVE pool entry. -/
def QueueOK (ps : List BattlePlayer) (q : List (Nat × Nat)) : Prop :=
  (flatPairs q).Nodup ∧
  ∀ i ∈ flatPairs q, ∃ p, p ∈ ps ∧ p.id = i ∧ p.status = PStatus.ALIVE

/-- Invariant of a running battle: pool ids are unique, the queue is
 well-formed, and no pool entry carries the WINNER status. -/
structure BattleInv (st : BattleState) : Prop where
  nodup : (st.players.map (fun p => p.id)).Nodup
  queue : QueueOK st.players st.matchQueue
  nowin : ∀ p ∈ st.players, p.status ≠ PStatus.WINNER

/-! ## Concrete instances used to exercise the theorems -/

/-- Sample battle settings. -/
def exSettings : BattleSettings :=
  { arena := "The Void", genre := "BATTLE_ROYALE", style := "Comic Book" }

/-- Sample battle participant. -/
def exPlayer (i : Nat) (name : String) : BattlePlayer :=
  { id := i, username := name, avatarUrl := "u", walletAddress := none,
    gender := Gender.Male, status := PStatus.ALIVE, roundWins := 0 }

/-- A two-contestant pool. -/
def exPool2 : List BattlePlayer := [exPlayer 0 "a", exPlayer 1 "b"]

/-- A three-contestant pool (odd alive count). -/
def exPool3 : List BattlePlayer := [exPlayer 0 "a", exPlayer 1 "b", exPlayer 2 "c"]

/-- An oracle whose draws are all zero, whose coin always picks the first
 contestant, and whose generative calls all fail. -/
def exOracle : Oracle :=
  { rand := fun _ _ => 0, coin := fun _ => true, throws := fun _ => false,
    textGen := fun _ => none, imgGen := fun _ => none, h2hGen := fun _ => none }

/-- The zero oracle with a succeeding image call. -/
def exOracleImg : Oracle := { exOracle with imgGen := fun _ => some ("image/png", "IMG") }

/-- The zero oracle with a throwing match body. -/
def exOracleThrow : Oracle := { exOracle with throws := fun _ => true }

/-- An in-progress battle over the two-contestant pool with one queued pairing. -/
def exStateQ : BattleState :=
  { initBattleState exPool2 exSettings with
      matchQueue := [(0, 1)], status := MStatus.IN_PROGRESS, round := 1 }

/-- Sample lobby settings (non-team mode). -/
def exLobbySettings : LobbySettings :=
  { arena := "The Void", genre := "BATTLE_ROYALE",
    registrationType := RegistrationType.PFP, teamA := none, teamB := none }

/-- Sample lobby registrant. -/
def exLobbyPlayer (i name : String) : Player :=
  { id := i, username := name, avatarUrl := "u", isOnline := true,
    walletAddress := none, nftAttributes := none, team := none }

/-- A lobby of capacity 2 holding one registrant. -/
def exLobby1 : Lobby :=
  { hostId := "H", channelId := "ch", players := [exLobbyPlayer "H" "host"],
    maxPlayers := 2, status := LobbyStatus.OPEN, settings := exLobbySettings }

/-- A base58 key string of length 32 used as a configured collection id. -/
def exKey : String := "AAAAAAAAAAAAAAAAAAAAAAAAAAAAAAAA"

/-- Asset whose verified collection is the configured key. -/
def exAsset1 : AssetMeta :=
  { name := "N1", symbol := "S", uri := "u1",
    collection := some (exKey, true), creators := none }

/-- Asset with no collection link and an unrelated verified creator. -/
def exAsset2 : AssetMeta :=
  { name := "N2", symbol := "S", uri := "u2", collection := none,
    creators := some [{ address := "CRE", verified := true }] }

/-- Wallet holdings: two single-unit mints and two non-single-unit accounts. -/
def exAccounts : List TokenAccount :=
  [{ uiAmount := 1, decimals := 0, mint := "M1" },
   { uiAmount := 1, decimals := 0, mint := "M2" },
   { uiAmount := 2, decimals := 0, mint := "F1" },
   { uiAmount := 1, decimals := 2, mint := "F2" }]

/-- A chain environment with one configured collection key and two fetchable
 holdings, one of which belongs to the configured collection. -/
def exEnv : ChainEnv :=
  { getConfig := fun k => if k == "server_collection" then some exKey else none,
    configFails := false,
    fetchAsset := fun m =>
      if m == "M1" then some exAsset1 else if m == "M2" then some exAsset2 else none,
    fetchJson := fun _ => some { image := "img", attributes := none },
    howrareFirstMint := fun _ => none,
    getTokenAccounts := fun w => if w == "W" then some exAccounts else none }

/-- The same environment with no configured collections. -/
def exEnvOpen : ChainEnv := { exEnv with getConfig := fun _ => none }

/-- The same environment with a failing config store. -/
def exEnvFail : ChainEnv := { exEnv with configFails := true }

/-- The same environment presenting an empty wallet. -/
def exEnvEmpty : ChainEnv := { exEnv with getTokenAccounts := fun _ => some [] }

/-! ## General lemmas about the pool updates -/

theorem setStatusById_mem (ps : List BattlePlayer) (i : Nat) (s : PStatus) :
    ∀ p ∈ setStatusById ps i s, p.id = i → p.status = s := by
  intro p hp hid
  simp only [setStatusById, List.mem_map] at hp
  obtain ⟨q, hq, hpq⟩ := hp
  by_cases h : q.id = i
  · rw [← hpq]
    simp [h]
  · rw [← hpq] at hid
    simp [h] at hid

theorem flatten_map_filterMap (f : α → Option β) (L : List (List α)) :
    (L.map (fun b => b.filterMap f)).flatten = L.flatten.filterMap f := by
  induction L with
  | nil => rfl
  | cons b L ih =>
    rw [List.map_cons, List.flatten_cons, List.flatten_cons, List.filterMap_append, ih]

/-! ## Claim theorems: start gate and lobby capacity -/

theorem mem_validGangCounts (n : Nat) :
    n ∈ validGangCounts ↔ (n = 4 ∨ n = 8 ∨ n = 16) := by
  simp [validGangCounts]

/-- Claim C4: the start subcommand rejects, leaving the lobby unchanged, unless
 the contestant count is legal — even within 2..24 in non-team mode, one of
 4, 8, 16 in gang mode — and hands the lobby to startBattleLogic exactly when
 the count is legal. -/
theorem battleStart_count_gate (lobby : Lobby) :
    ((battleStart lobby).2 = none ↔
      legalStartCount (lobby.settings.genre == "GANG_MODE") lobby.players.length = true) ∧
    ((battleStart lobby).2 ≠ none → (battleStart lobby).1 = lobby) ∧
    ((battleStart lobby).2 = none → (battleStart lobby).1 = startBattleLogicL lobby) := by
  unfold battleStart legalStartCount
  by_cases hg : (lobby.settings.genre == "GANG_MODE") = true
  · by_cases hm : lobby.players.length ∈ validGangCounts
    · have h2 : ¬ lobby.players.length < 2 := by
        have hm2 := (mem_validGangCounts lobby.players.length).mp hm
        omega
      simp [hg, hm, h2]
    · by_cases h2 : lobby.players.length < 2
      · simp [hg, hm, h2]
      · simp [hg, hm, h2]
  · rw [Bool.not_eq_true] at hg
    by_cases h2 : lobby.players.length < 2 <;>
      by_cases h24 : 24 < lobby.players.length <;>
      by_cases hev : lobby.players.length % 2 = 0 <;>
      (simp [hg, h2, h24, hev]; try omega)

/-- Claim C5 (failing execution): the join flow checks capacity before its
 await-suspended validation and pushes afterwards, so two concurrent joins into
 a lobby with one free seat both pass the check and both get admitted, leaving
 the lobby over capacity. -/
theorem join_capacity_race :
    joinCheck exLobby1 "B" = none ∧
    joinCheck exLobby1 "C" = none ∧
    exLobby1.maxPlayers = 2 ∧
    (joinAdd (joinAdd exLobby1 (exLobbyPlayer "B" "b")) (exLobbyPlayer "C" "c")).players.length
      = 3 ∧
    joinCheck (joinAdd exLobby1 (exLobbyPlayer "B" "b")) "C" = some "Lobby is full!" := by
  decide

/-! ## Claim theorems: match failure handling -/

/-- Claim C3: when the match body throws, the catch force-eliminates the second
 contestant of the pairing, pops the pairing, records nothing, and schedules
 the next processRound invocation — the error is absorbed, not propagated. -/
theorem match_throw_forced_elimination (o : Oracle) (k : Nat) (st : BattleState)
    (p1 p2 : Nat) (rest : List (Nat × Nat))
    (hq : st.matchQueue = (p1, p2) :: rest) (hthrow : o.throws k = true) :
    processRound o k st =
      ({ st with matchQueue := rest,
                 players := setStatusById st.players p2 PStatus.ELIMINATED }, true) ∧
    (∀ p ∈ setStatusById st.players p2 PStatus.ELIMINATED,
       p.id = p2 → p.status = PStatus.ELIMINATED) := by
  constructor
  · unfold processRound runMatch
    rw [hq]
    simp [hthrow]
  · exact setStatusById_mem st.players p2 PStatus.ELIMINATED

/-- Concrete run of the forced-elimination fallback. -/
theorem match_throw_forced_elimination_witness :
    processRound exOracleThrow 1 exStateQ =
      ({ exStateQ with matchQueue := [],
                       players := setStatusById exStateQ.players 1 PStatus.ELIMINATED }, true) ∧
    (∀ p ∈ setStatusById exStateQ.players 1 PStatus.ELIMINATED,
       p.id = 1 → p.status = PStatus.ELIMINATED) :=
  match_throw_forced_elimination exOracleThrow 1 exStateQ 0 1 [] rfl rfl

/-- Claim C6: with a failed narrative call and a succeeding image call, the match
 still resolves: the recorded result carries the non-empty placeholder
 narrative, the generated image artifact, and exactly one winner and one
 loser drawn from the pairing, and the loop schedules the next invocation. -/
theorem narrative_fallback_match (o : Oracle) (k : Nat) (st : BattleState)
    (p1 p2 : Nat) (rest : List (Nat × Nat)) (mime data : String)
    (hq : st.matchQueue = (p1, p2) :: rest)
    (hth : o.throws k = false)
    (htxt : o.textGen k = none)
    (himg : o.imgGen k = some (mime, data))
    (hne : p1 ≠ p2) :
    (processRound o k st).2 = true ∧
    ∃ r : RoundResult,
      (processRound o k st).1.history = st.history ++ [r] ∧
      r.narrative = "The fighters clash!" ∧ r.narrative ≠ "" ∧
      r.imageUrl = mkDataUrl mime data ∧
      ((r.winnerId = p1 ∧ r.loserId = p2) ∨ (r.winnerId = p2 ∧ r.loserId = p1)) ∧
      r.winnerId ≠ r.loserId ∧
      (processRound o k st).1.players =
        setStatusById (addWinById st.players r.winnerId) r.loserId PStatus.ELIMINATED := by
  cases hc : o.coin k
  · refine ⟨?_, ⟨⟨st.round, p2, p1, "The fighters clash!", mkDataUrl mime data,
      generateHeadToHead (o.h2hGen k)⟩, ?_, rfl, by simp, rfl,
      Or.inr ⟨rfl, rfl⟩, fun h => hne h.symm, ?_⟩⟩ <;>
    · unfold processRound runMatch
      rw [hq]
      simp [hth, htxt, himg, hc, generateActionSequence]
  · refine ⟨?_, ⟨⟨st.round, p1, p2, "The fighters clash!", mkDataUrl mime data,
      generateHeadToHead (o.h2hGen k)⟩, ?_, rfl, by simp, rfl,
      Or.inl ⟨rfl, rfl⟩, hne, ?_⟩⟩ <;>
    · unfold processRound runMatch
      rw [hq]
      simp [hth, htxt, himg, hc, generateActionSequence]

/-- Concrete run of the narrative fallback with a succeeding image call. -/
theorem narrative_fallback_match_witness :
    (processRound exOracleImg 1 exStateQ).2 = true ∧
    ∃ r : RoundResult,
      (processRound exOracleImg 1 exStateQ).1.history = exStateQ.history ++ [r] ∧
      r.narrative = "The fighters clash!" ∧ r.narrative ≠ "" ∧
      r.imageUrl = mkDataUrl "image/png" "IMG" ∧
      ((r.winnerId = 0 ∧ r.loserId = 1) ∨ (r.winnerId = 1 ∧ r.loserId = 0)) ∧
      r.winnerId ≠ r.loserId ∧
      (processRound exOracleImg 1 exStateQ).1.players =
        setStatusById (addWinById exStateQ.players r.winnerId) r.loserId
          PStatus.ELIMINATED :=
  narrative_fallback_match exOracleImg 1 exStateQ 0 1 [] "image/png" "IMG"
    rfl rfl rfl rfl (by decide)

/-! ## Claim theorems: batched verification coverage and total failure -/

/-- Claim C9: the slicing loop covers the holdings exactly — flattening the
 batches gives back the original mint list (so no holding is skipped or
 examined twice at a chunk boundary), and the per-batch processing of the
 verifier equals one uninterrupted scan of all holdings. -/
theorem batches_flatten (l : List α) : (batches l).flatten = l := by
  induction l using batches.induct with
  | case1 => rfl
  | case2 a b c rest ih => simp [batches, ih]
  | case3 l h1 h2 => cases l with
    | nil => simp at h1
    | cons a t => cases t with
      | nil => rfl
      | cons b t2 => cases t2 with
        | nil => rfl
        | cons c t3 => exact absurd rfl (h2 a b c t3)

theorem batches_cover_all (mints : List String) :
    (batches mints).flatten = mints ∧
    ∀ f : String → Option NFTData,
      ((batches mints).map (fun b => b.filterMap f)).flatten = mints.filterMap f := by
  refine ⟨batches_flatten mints, fun f => ?_⟩
  rw [flatten_map_filterMap, batches_flatten]

/-- Claim C10: every top-level failure of the verifier — a failing config
 store, an invalid wallet address or a failed holdings lookup — yields the
 empty list, which is exactly the output produced for a wallet without
 single-unit holdings, so the two situations are indistinguishable at the
 public interface. -/
theorem verify_failure_indistinguishable (env : ChainEnv) (w : String) (t : Option String)
    (h : env.configFails = true ∨ env.getTokenAccounts w = none) :
    verifyWalletAndGetNFTs env w t = [] ∧
    ∀ (env2 : ChainEnv) (w2 : String) (t2 : Option String) (accs : List TokenAccount),
      env2.getTokenAccounts w2 = some accs → singleUnitMints accs = [] →
      verifyWalletAndGetNFTs env2 w2 t2 = verifyWalletAndGetNFTs env w t := by
  have h1 : verifyWalletAndGetNFTs env w t = [] := by
    rcases h with h | h
    · simp [verifyWalletAndGetNFTs, h]
    · unfold verifyWalletAndGetNFTs
      cases hc : env.configFails
      · simp [h]
      · simp
  refine ⟨h1, fun env2 w2 t2 accs ha hs => ?_⟩
  rw [h1]
  unfold verifyWalletAndGetNFTs
  cases hc : env2.configFails
  · simp [ha, hs]
  · simp

/-- Concrete indistinguishability: a failing config store and an empty wallet
 produce the same (empty) verifier output. -/
theorem verify_failure_indistinguishable_witness :
    verifyWalletAndGetNFTs exEnvFail "W" none = [] ∧
    verifyWalletAndGetNFTs exEnvEmpty "W" none = verifyWalletAndGetNFTs exEnvFail "W" none := by
  have h := verify_failure_indistinguishable exEnvFail "W" none (Or.inl rfl)
  exact ⟨h.1, h.2 exEnvEmpty "W" none [] rfl rfl⟩

/-! ## Shuffle and pairing lemmas -/

theorem swapCount_arith (n x y : Nat) (hx : x ≤ n) : n - x + y - y + x = n := by
  omega

theorem count_listSwap [DecidableEq α] (l : List α) (i j : Nat) (c : α) :
    (listSwap l i j).count c = l.count c := by
  unfold listSwap
  cases hi : l.get? i with
  | none => rfl
  | some a =>
    cases hj : l.get? j with
    | none => rfl
    | some b =>
      have hi2 : i < l.length := by
        by_contra hlt
        rw [List.get?_eq_none.mpr (by omega)] at hi
        exact Option.noConfusion hi
      have hj2 : j < l.length := by
        by_contra hlt
        rw [List.get?_eq_none.mpr (by omega)] at hj
        exact Option.noConfusion hj
      have hia : l[i] = a := by
        have := List.get?_eq_get hi2
        rw [hi] at this
        exact (Option.some.injEq _ _).mp this.symm
      have hjb : l[j] = b := by
        have := List.get?_eq_get hj2
        rw [hj] at this
        exact (Option.some.injEq _ _).mp this.symm
      have hj3 : j < (l.set i b).length := by
        rw [List.length_set]
        exact hj2
      have hsb : (l.set i b)[j] = b := by
        by_cases hij : i = j
        · subst hij
          exact List.getElem_set_self hj3
        · rw [List.getElem_set_ne hij]
          exact hjb
      have hmem : a ∈ l := by
        rw [← hia]
        exact List.getElem_mem hi2
      have hca : (if (a == c) = true then 1 else 0) ≤ l.count c := by
        by_cases hac : a = c
        · simp only [hac, beq_self_eq_true, if_true]
          exact List.count_pos_iff.mpr (hac ▸ hmem)
        · simp [hac]
      rw [List.count_set a c (l.set i b) j hj3, List.count_set b c l i hi2, hia, hsb]
      exact swapCount_arith (l.count c) _ _ hca

theorem listSwap_perm [DecidableEq α] (l : List α) (i j : Nat) :
    (listSwap l i j).Perm l :=
  List.perm_iff_count.mpr (fun c => count_listSwap l i j c)

theorem fisherYatesAux_perm [DecidableEq α] (rand : Nat → Nat) :
    ∀ (n : Nat) (l : List α), (fisherYatesAux rand n l).Perm l := by
  intro n
  induction n with
  | zero => intro l; exact List.Perm.refl l
  | succ m ih =>
    intro l
    exact (ih (listSwap l (m + 1) (rand (m + 1) % (m + 2)))).trans
      (listSwap_perm l (m + 1) (rand (m + 1) % (m + 2)))

theorem fisherYates_perm [DecidableEq α] (rand : Nat → Nat) (l : List α) :
    (fisherYates rand l).Perm l :=
  fisherYatesAux_perm rand (l.length - 1) l

theorem flatPairs_pairUp (l : List α) :
    ∃ t : List α, flatPairs (pairUp l) ++ t = l ∧ t.length = l.length % 2 := by
  induction l using pairUp.induct with
  | case1 => exact ⟨[], rfl, rfl⟩
  | case2 a => exact ⟨[a], rfl, rfl⟩
  | case3 a b rest ih =>
    obtain ⟨t, ht, hl⟩ := ih
    refine ⟨t, ?_, ?_⟩
    · simp only [pairUp, flatPairs, List.cons_append, ht]
    · simp only [List.length_cons]
      omega

theorem flatPairs_length (prs : List (α × α)) :
    (flatPairs prs).length = 2 * prs.length := by
  induction prs with
  | nil => rfl
  | cons pq rest ih =>
    cases pq
    simp only [flatPairs, List.length_cons, ih]
    omega

theorem flatPairs_toIdPairs (prs : List (BattlePlayer × BattlePlayer)) :
    flatPairs (toIdPairs prs) = (flatPairs prs).map (fun p => p.id) := by
  induction prs with
  | nil => rfl
  | cons pq rest ih =>
    cases pq with
    | mk a b =>
      show a.id :: b.id :: flatPairs (toIdPairs rest)
          = (a :: b :: flatPairs rest).map (fun p => p.id)
      rw [List.map_cons, List.map_cons, ih]

theorem aliveCount_eq_length (ps : List BattlePlayer) :
    aliveCount ps = (aliveFilter ps).length := by
  simp [aliveCount, countStatus, aliveFilter, List.countP_eq_length_filter]

theorem aliveIds_nodup (ps : List BattlePlayer)
    (h : (ps.map (fun p => p.id)).Nodup) :
    ((aliveFilter ps).map (fun p => p.id)).Nodup :=
  ((List.filter_sublist ps).map (fun p => p.id)).nodup h

theorem setStatusById_map_id (ps : List BattlePlayer) (i : Nat) (s : PStatus) :
    (setStatusById ps i s).map (fun p => p.id) = ps.map (fun p => p.id) := by
  unfold setStatusById
  rw [List.map_map]
  exact List.map_congr_left (fun p _ => by by_cases h : p.id = i <;> simp [h])

theorem addWinById_map_id (ps : List BattlePlayer) (i : Nat) :
    (addWinById ps i).map (fun p => p.id) = ps.map (fun p => p.id) := by
  unfold addWinById
  rw [List.map_map]
  exact List.map_congr_left (fun p _ => by by_cases h : p.id = i <;> simp [h])

theorem setStatusById_eq_self (ps : List BattlePlayer) (i : Nat) (s : PStatus)
    (h : ∀ p ∈ ps, p.id ≠ i) : setStatusById ps i s = ps := by
  unfold setStatusById
  have h2 : ∀ p ∈ ps, (if p.id = i then { p with status := s } else p) = id p :=
    fun p hp => by simp [h p hp]
  rw [List.map_congr_left h2, List.map_id]

theorem mem_setStatusById_of_ne (ps : List BattlePlayer) (i : Nat) (s : PStatus)
    (p : BattlePlayer) (hp : p ∈ ps) (hne : p.id ≠ i) :
    p ∈ setStatusById ps i s := by
  have h : (fun q => if q.id = i then { q with status := s } else q) p = p := by
    simp [hne]
  unfold setStatusById
  exact h ▸ List.mem_map_of_mem _ hp

theorem mem_addWinById_of_ne (ps : List BattlePlayer) (i : Nat)
    (p : BattlePlayer) (hp : p ∈ ps) (hne : p.id ≠ i) :
    p ∈ addWinById ps i := by
  have h : (fun q => if q.id = i then { q with roundWins := q.roundWins + 1 } else q) p
      = p := by simp [hne]
  unfold addWinById
  exact h ▸ List.mem_map_of_mem _ hp

theorem nowin_setStatusById (ps : List BattlePlayer) (i : Nat)
    (h : ∀ p ∈ ps, p.status ≠ PStatus.WINNER) :
    ∀ p ∈ setStatusById ps i PStatus.ELIMINATED, p.status ≠ PStatus.WINNER := by
  intro p hp
  simp only [setStatusById, List.mem_map] at hp
  obtain ⟨q, hq, hpq⟩ := hp
  subst hpq
  by_cases hqi : q.id = i
  · simp [hqi]
  · simpa [hqi] using h q hq

theorem nowin_addWinById (ps : List BattlePlayer) (i : Nat)
    (h : ∀ p ∈ ps, p.status ≠ PStatus.WINNER) :
    ∀ p ∈ addWinById ps i, p.status ≠ PStatus.WINNER := by
  intro p hp
  simp only [addWinById, List.mem_map] at hp
  obtain ⟨q, hq, hpq⟩ := hp
  subst hpq
  by_cases hqi : q.id = i
  · simpa [hqi] using h q hq
  · simpa [hqi] using h q hq

theorem countStatus_addWinById (ps : List BattlePlayer) (i : Nat) (s : PStatus) :
    countStatus (addWinById ps i) s = countStatus ps s := by
  unfold countStatus addWinById
  rw [List.countP_map]
  exact List.countP_congr (fun p _ => by by_cases h : p.id = i <;> simp [h])

theorem countStatus_setStatusById_elim (ps : List BattlePlayer) (i : Nat)
    (hnd : (ps.map (fun p => p.id)).Nodup)
    (hw : ∃ p, p ∈ ps ∧ p.id = i ∧ p.status = PStatus.ALIVE) :
    countStatus (setStatusById ps i PStatus.ELIMINATED) PStatus.ALIVE + 1
        = countStatus ps PStatus.ALIVE ∧
    countStatus (setStatusById ps i PStatus.ELIMINATED) PStatus.ELIMINATED
        = countStatus ps PStatus.ELIMINATED + 1 ∧
    countStatus (setStatusById ps i PStatus.ELIMINATED) PStatus.WINNER
        = countStatus ps PStatus.WINNER := by
  induction ps with
  | nil =>
    obtain ⟨p, hp, _, _⟩ := hw
    exact absurd hp (List.not_mem_nil p)
  | cons q rest ih =>
    simp only [List.map_cons, List.nodup_cons] at hnd
    obtain ⟨p, hp, hpi, hps⟩ := hw
    by_cases hqi : q.id = i
    · have hrest : ∀ r ∈ rest, r.id ≠ i := by
        intro r hr hri
        exact hnd.1 (List.mem_map.mpr ⟨r, hr, by rw [hri, hqi]⟩)
      have hpq : p = q := by
        rcases List.mem_cons.mp hp with h | h
        · exact h
        · exact absurd hpi (hrest p h)
      have hqs : q.status = PStatus.ALIVE := hpq ▸ hps
      have hsame : setStatusById rest i PStatus.ELIMINATED = rest :=
        setStatusById_eq_self rest i PStatus.ELIMINATED hrest
      have hhead : setStatusById (q :: rest) i PStatus.ELIMINATED
          = { q with status := PStatus.ELIMINATED } :: rest := by
        unfold setStatusById
        rw [List.map_cons, if_pos hqi]
        unfold setStatusById at hsame
        rw [hsame]
      rw [hhead]
      unfold countStatus
      simp [List.countP_cons, hqs]
    · have hprest : p ∈ rest := by
        rcases List.mem_cons.mp hp with h | h
        · exact absurd (h ▸ hpi) hqi
        · exact h
      have hhead : setStatusById (q :: rest) i PStatus.ELIMINATED
          = q :: setStatusById rest i PStatus.ELIMINATED := by
        unfold setStatusById
        rw [List.map_cons, if_neg hqi]
      obtain ⟨c1, c2, c3⟩ := ih hnd.2 ⟨p, hprest, hpi, hps⟩
      rw [hhead]
      unfold countStatus at c1 c2 c3 ⊢
      simp only [List.countP_cons]
      omega

theorem queueOK_le_alive {ps : List BattlePlayer} {q : List (Nat × Nat)}
    (h : QueueOK ps q) :
    2 * q.length ≤ aliveCount ps := by
  have hsub : flatPairs q ⊆ (aliveFilter ps).map (fun p => p.id) := by
    intro i hi
    obtain ⟨p, hp, hpi, hps⟩ := h.2 i hi
    exact List.mem_map.mpr ⟨p, List.mem_filter.mpr ⟨hp, by simp [hps]⟩, hpi⟩
  have hle := (List.subperm_of_subset h.1 hsub).length_le
  rw [flatPairs_length] at hle
  rw [aliveCount_eq_length]
  simpa using hle

theorem generateBracket_spec (rand : Nat → Nat) (ps : List BattlePlayer) :
    ∃ (sh t : List BattlePlayer),
      sh.Perm (aliveFilter ps) ∧
      generateBracket rand ps = toIdPairs (pairUp sh) ∧
      flatPairs (pairUp sh) ++ t = sh ∧
      t.length = (aliveFilter ps).length % 2 := by
  have hperm := fisherYates_perm rand (aliveFilter ps)
  obtain ⟨t, ht, hl⟩ := flatPairs_pairUp (fisherYates rand (aliveFilter ps))
  exact ⟨fisherYates rand (aliveFilter ps), t, hperm, rfl, ht,
    by rw [hl, hperm.length_eq]⟩

theorem generateBracket_queueOK (rand : Nat → Nat) (ps : List BattlePlayer)
    (hnd : (ps.map (fun p => p.id)).Nodup) :
    QueueOK ps (generateBracket rand ps) ∧
    2 * (generateBracket rand ps).length + (aliveFilter ps).length % 2
      = (aliveFilter ps).length := by
  obtain ⟨sh, t, hperm, hgen, hflat, htl⟩ := generateBracket_spec rand ps
  have hshIds : (sh.map (fun p => p.id)).Perm ((aliveFilter ps).map (fun p => p.id)) :=
    hperm.map (fun p => p.id)
  have hshNodup : (sh.map (fun p => p.id)).Nodup :=
    hshIds.nodup_iff.mpr (aliveIds_nodup ps hnd)
  have hfq : flatPairs (generateBracket rand ps)
      = (flatPairs (pairUp sh)).map (fun p => p.id) := by
    rw [hgen, flatPairs_toIdPairs]
  have happ : (flatPairs (pairUp sh)).map (fun p => p.id) ++ t.map (fun p => p.id)
      = sh.map (fun p => p.id) := by
    rw [← List.map_append, hflat]
  refine ⟨⟨?_, ?_⟩, ?_⟩
  · rw [hfq]
    have hnd2 : ((flatPairs (pairUp sh)).map (fun p => p.id)
        ++ t.map (fun p => p.id)).Nodup := by
      rw [happ]
      exact hshNodup
    exact (List.nodup_append.mp hnd2).1
  · intro i hi
    rw [hfq] at hi
    obtain ⟨p, hp, hpid⟩ := List.mem_map.mp hi
    have hpsh : p ∈ sh := by
      rw [← hflat]
      exact List.mem_append_left t hp
    have hpal : p ∈ aliveFilter ps := hperm.subset hpsh
    have hpf := List.mem_filter.mp hpal
    exact ⟨p, hpf.1, hpid, by simpa using hpf.2⟩
  · have h1 : (flatPairs (pairUp sh)).length + t.length = sh.length := by
      rw [← List.length_append, hflat]
    have h2 : sh.length = (aliveFilter ps).length := hperm.length_eq
    have h3 : (flatPairs (pairUp sh)).length = 2 * (pairUp sh).length :=
      flatPairs_length (pairUp sh)
    have h4 : (generateBracket rand ps).length = (pairUp sh).length := by
      rw [hgen]
      simp [toIdPairs]
    omega

/-! ## Step lemmas for processRound -/

theorem elimPool_spec (ps : List BattlePlayer) (w l : Nat)
    (hnd : (ps.map (fun p => p.id)).Nodup)
    (hnowin : ∀ p ∈ ps, p.status ≠ PStatus.WINNER)
    (hwl : w ≠ l)
    (hlwit : ∃ p, p ∈ ps ∧ p.id = l ∧ p.status = PStatus.ALIVE) :
    ((setStatusById (addWinById ps w) l PStatus.ELIMINATED).map (fun p => p.id)).Nodup ∧
    (∀ p ∈ setStatusById (addWinById ps w) l PStatus.ELIMINATED,
      p.status ≠ PStatus.WINNER) ∧
    (setStatusById (addWinById ps w) l PStatus.ELIMINATED).length = ps.length ∧
    aliveCount (setStatusById (addWinById ps w) l PStatus.ELIMINATED) + 1
      = aliveCount ps ∧
    countStatus (setStatusById (addWinById ps w) l PStatus.ELIMINATED) PStatus.ELIMINATED
      = countStatus ps PStatus.ELIMINATED + 1 ∧
    (∀ i, i ≠ w → i ≠ l → (∃ p, p ∈ ps ∧ p.id = i ∧ p.status = PStatus.ALIVE) →
      ∃ p, p ∈ setStatusById (addWinById ps w) l PStatus.ELIMINATED
        ∧ p.id = i ∧ p.status = PStatus.ALIVE) := by
  have hnd1 : ((addWinById ps w).map (fun p => p.id)).Nodup := by
    rw [addWinById_map_id]
    exact hnd
  have hlwit1 : ∃ p, p ∈ addWinById ps w ∧ p.id = l ∧ p.status = PStatus.ALIVE := by
    obtain ⟨p, hp, hpi, hps⟩ := hlwit
    exact ⟨p, mem_addWinById_of_ne ps w p hp (by rw [hpi]; exact fun h => hwl h.symm),
      hpi, hps⟩
  obtain ⟨c1, c2, c3⟩ := countStatus_setStatusById_elim (addWinById ps w) l hnd1 hlwit1
  refine ⟨?_, ?_, ?_, ?_, ?_, ?_⟩
  · rw [setStatusById_map_id, addWinById_map_id]
    exact hnd
  · exact nowin_setStatusById _ l (nowin_addWinById _ w hnowin)
  · unfold setStatusById addWinById
    simp
  · show countStatus _ PStatus.ALIVE + 1 = countStatus ps PStatus.ALIVE
    rw [c1, countStatus_addWinById]
  · rw [c2, countStatus_addWinById]
  · intro i hiw hil ⟨p, hp, hpi, hps⟩
    exact ⟨p, mem_setStatusById_of_ne _ l PStatus.ELIMINATED p
      (mem_addWinById_of_ne ps w p hp (hpi ▸ hiw)) (hpi ▸ hil), hpi, hps⟩

theorem runMatch_spec (o : Oracle) (k : Nat) (st : BattleState)
    (p1 p2 : Nat) (rest : List (Nat × Nat))
    (hq : st.matchQueue = (p1, p2) :: rest)
    (hInv : BattleInv st) :
    (runMatch o k st).2 = true ∧
    BattleInv (runMatch o k st).1 ∧
    (runMatch o k st).1.players.length = st.players.length ∧
    aliveCount (runMatch o k st).1.players + 1 = aliveCount st.players ∧
    countStatus (runMatch o k st).1.players PStatus.ELIMINATED
      = countStatus st.players PStatus.ELIMINATED + 1 ∧
    (runMatch o k st).1.status = st.status := by
  have hflat : flatPairs st.matchQueue = p1 :: p2 :: flatPairs rest := by
    rw [hq]
    rfl
  have hqnd := hInv.queue.1
  rw [hflat] at hqnd
  have h12 : p1 ≠ p2 := by
    have := (List.nodup_cons.mp hqnd).1
    intro h
    exact this (h ▸ List.mem_cons_self p2 (flatPairs rest))
  have hp1rest : p1 ∉ flatPairs rest := by
    have := (List.nodup_cons.mp hqnd).1
    intro h
    exact this (List.mem_cons_of_mem p2 h)
  have hp2rest : p2 ∉ flatPairs rest :=
    (List.nodup_cons.mp (List.nodup_cons.mp hqnd).2).1
  have hrestnd : (flatPairs rest).Nodup :=
    (List.nodup_cons.mp (List.nodup_cons.mp hqnd).2).2
  have hw1 : ∃ p, p ∈ st.players ∧ p.id = p1 ∧ p.status = PStatus.ALIVE := by
    have := hInv.queue.2 p1
    rw [hflat] at this
    exact this (List.mem_cons_self p1 _)
  have hw2 : ∃ p, p ∈ st.players ∧ p.id = p2 ∧ p.status = PStatus.ALIVE := by
    have := hInv.queue.2 p2
    rw [hflat] at this
    exact this (List.mem_cons_of_mem p1 (List.mem_cons_self p2 _))
  have hrestw : ∀ i ∈ flatPairs rest,
      ∃ p, p ∈ st.players ∧ p.id = i ∧ p.status = PStatus.ALIVE := by
    intro i hi
    have := hInv.queue.2 i
    rw [hflat] at this
    exact this (List.mem_cons_of_mem p1 (List.mem_cons_of_mem p2 hi))
  unfold runMatch
  rw [hq]
  cases hthr : o.throws k
  · -- the normal resolution path
    cases hc : o.coin k
    · -- coin false: winner is the second contestant
      simp only [hthr, hc, Bool.false_eq_true, if_false]
      obtain ⟨e1, e2, e3, e4, e5, e6⟩ :=
        elimPool_spec st.players p2 p1 hInv.nodup hInv.nowin (fun h => h12 h.symm) hw1
      refine ⟨by trivial, ⟨e1, ⟨hrestnd, ?_⟩, e2⟩, e3, e4, e5, by trivial⟩
      intro i hi
      exact e6 i (fun h => hp2rest (h ▸ hi)) (fun h => hp1rest (h ▸ hi)) (hrestw i hi)
    · -- coin true: winner is the first contestant
      simp only [hthr, hc, Bool.false_eq_true, if_false, if_true]
      obtain ⟨e1, e2, e3, e4, e5, e6⟩ :=
        elimPool_spec st.players p1 p2 hInv.nodup hInv.nowin h12 hw2
      refine ⟨by trivial, ⟨e1, ⟨hrestnd, ?_⟩, e2⟩, e3, e4, e5, by trivial⟩
      intro i hi
      exact e6 i (fun h => hp1rest (h ▸ hi)) (fun h => hp2rest (h ▸ hi)) (hrestw i hi)
  · -- the catch path: force-eliminate the second contestant
    simp only [hthr, if_true]
    obtain ⟨c1, c2, c3⟩ := countStatus_setStatusById_elim st.players p2 hInv.nodup hw2
    refine ⟨by trivial, ?_, ?_, c1, c2, by trivial⟩
    · refine ⟨?_, ⟨hrestnd, ?_⟩, ?_⟩
      · show ((setStatusById st.players p2 PStatus.ELIMINATED).map (fun p => p.id)).Nodup
        rw [setStatusById_map_id]
        exact hInv.nodup
      · intro i hi
        obtain ⟨p, hp, hpi, hps⟩ := hrestw i hi
        have hip2 : i ≠ p2 := fun h => hp2rest (h ▸ hi)
        exact ⟨p, mem_setStatusById_of_ne st.players p2 PStatus.ELIMINATED p hp
          (hpi ▸ hip2), hpi, hps⟩
      · exact nowin_setStatusById st.players p2 hInv.nowin
    · show (setStatusById st.players p2 PStatus.ELIMINATED).length = st.players.length
      unfold setStatusById
      simp

theorem processRound_step (o : Oracle) (k : Nat) (st : BattleState)
    (hInv : BattleInv st) (h2 : 2 ≤ aliveCount st.players) :
    (processRound o k st).2 = true ∧
    BattleInv (processRound o k st).1 ∧
    (processRound o k st).1.players.length = st.players.length ∧
    aliveCount (processRound o k st).1.players + 1 = aliveCount st.players ∧
    countStatus (processRound o k st).1.players PStatus.ELIMINATED
      = countStatus st.players PStatus.ELIMINATED + 1 ∧
    (processRound o k st).1.status = st.status := by
  cases hq : st.matchQueue with
  | cons pq rest =>
    have hpr : processRound o k st = runMatch o k st := by
      unfold processRound
      rw [hq]
      rfl
    rw [hpr]
    exact runMatch_spec o k st pq.1 pq.2 rest (by rw [hq]) hInv
  | nil =>
    have halive1 : ¬ (aliveFilter st.players).length = 1 := by
      rw [← aliveCount_eq_length]
      omega
    have halive0 : ¬ (aliveFilter st.players).length = 0 := by
      rw [← aliveCount_eq_length]
      omega
    obtain ⟨hqok, hcnt⟩ := generateBracket_queueOK (o.rand k) st.players hInv.nodup
    have hlen : 1 ≤ (generateBracket (o.rand k) st.players).length := by
      have h2l : 2 ≤ (aliveFilter st.players).length := by
        rw [← aliveCount_eq_length]
        exact h2
      omega
    obtain ⟨q1, qrest, hq1⟩ : ∃ a b, generateBracket (o.rand k) st.players = a :: b := by
      cases hgb : generateBracket (o.rand k) st.players with
      | nil =>
        rw [hgb] at hlen
        simp at hlen
      | cons a b => exact ⟨a, b, rfl⟩
    have hInvb : BattleInv (buildBracket (o.rand k) st) :=
      ⟨hInv.nodup, hqok, hInv.nowin⟩
    have hpr : processRound o k st = runMatch o k (buildBracket (o.rand k) st) := by
      unfold processRound
      rw [hq]
      simp only [List.isEmpty_nil, if_true, if_neg halive1, if_neg halive0]
      have hnb : (buildBracket (o.rand k) st).matchQueue.isEmpty = false := by
        show (generateBracket (o.rand k) st.players).isEmpty = false
        rw [hq1]
        rfl
      rw [hnb]
      rfl
    rw [hpr]
    exact runMatch_spec o k (buildBracket (o.rand k) st) q1.1 q1.2 qrest
      (by show generateBracket (o.rand k) st.players = _; rw [hq1]) hInvb

theorem processRound_done (o : Oracle) (k : Nat) (st : BattleState)
    (hInv : BattleInv st) (h1 : aliveCount st.players = 1) :
    (processRound o k st).2 = false ∧
    ∃ w : BattlePlayer, w ∈ st.players ∧ w.status = PStatus.ALIVE ∧
      (processRound o k st).1 =
        { st with status := MStatus.COMPLETED, announcedWinnerId := some w.id } ∧
      aliveFilter st.players = [w] := by
  have hqe : st.matchQueue = [] := by
    have hle := queueOK_le_alive hInv.queue
    rw [h1] at hle
    cases hmq : st.matchQueue with
    | nil => rfl
    | cons a b =>
      rw [hmq] at hle
      simp only [List.length_cons] at hle
      omega
  have hlen : (aliveFilter st.players).length = 1 := by
    rw [← aliveCount_eq_length]
    exact h1
  obtain ⟨w, hw⟩ := List.length_eq_one.mp hlen
  have hwmem : w ∈ aliveFilter st.players := by
    rw [hw]
    exact List.mem_singleton_self w
  have hw2 := List.mem_filter.mp hwmem
  have hpr : processRound o k st =
      ({ st with status := MStatus.COMPLETED, announcedWinnerId := some w.id }, false) := by
    unfold processRound endBattle
    rw [hqe, hw]
    simp
  exact ⟨by simp [hpr], w, hw2.1, by simpa using hw2.2, by simp [hpr], hw⟩

theorem runRounds_spec (o : Oracle) :
    ∀ (fuel k : Nat) (st : BattleState), BattleInv st →
      1 ≤ aliveCount st.players → aliveCount st.players ≤ fuel →
      (runRounds o fuel k st).status = MStatus.COMPLETED ∧
      (runRounds o fuel k st).players.length = st.players.length ∧
      aliveCount (runRounds o fuel k st).players = 1 ∧
      countStatus (runRounds o fuel k st).players PStatus.ELIMINATED
        = countStatus st.players PStatus.ELIMINATED + (aliveCount st.players - 1) ∧
      (∀ p ∈ (runRounds o fuel k st).players, p.status ≠ PStatus.WINNER) ∧
      ∃ w, w ∈ (runRounds o fuel k st).players ∧ w.status = PStatus.ALIVE ∧
        (runRounds o fuel k st).announcedWinnerId = some w.id := by
  intro fuel
  induction fuel with
  | zero =>
    intro k st _ h1 hf
    omega
  | succ f ih =>
    intro k st hInv h1 hf
    by_cases hone : aliveCount st.players = 1
    · obtain ⟨hcont, w, hwmem, hwalive, hps, hwf⟩ := processRound_done o k st hInv hone
      have hrun : runRounds o (f + 1) k st = (processRound o k st).1 := by
        show (if (processRound o k st).2 = true then
            runRounds o f (k + 1) (processRound o k st).1
          else (processRound o k st).1) = (processRound o k st).1
        rw [hcont]
        simp
      rw [hrun, hps]
      refine ⟨rfl, rfl, hone, ?_, hInv.nowin, w, hwmem, hwalive, rfl⟩
      rw [hone]
      rfl
    · have h2 : 2 ≤ aliveCount st.players := by omega
      obtain ⟨hcont, hInv2, hlen, hal, helim, hstat⟩ := processRound_step o k st hInv h2
      have hrun : runRounds o (f + 1) k st
          = runRounds o f (k + 1) (processRound o k st).1 := by
        show (if (processRound o k st).2 = true then
            runRounds o f (k + 1) (processRound o k st).1
          else (processRound o k st).1) = runRounds o f (k + 1) (processRound o k st).1
        rw [hcont]
        simp
      obtain ⟨c1, c2, c3, c4, c5, c6⟩ :=
        ih (k + 1) (processRound o k st).1 hInv2 (by omega) (by omega)
      rw [hrun]
      refine ⟨c1, c2.trans hlen, c3, by omega, c5, c6⟩

/-! ## Claim theorems: tournament convergence and the bracket bye -/

/-- Claim C1 (amended): for every legal contestant count, running a tournament
 from start to completion ends COMPLETED with exactly one contestant still
 holding status ALIVE — the announced champion — and the remaining N-1 holding
 ELIMINATED; the WINNER status value is never assigned to any contestant. -/
theorem tournament_one_survivor (o : Oracle) (ps : List BattlePlayer)
    (settings : BattleSettings) (fuel : Nat)
    (hnd : (ps.map (fun p => p.id)).Nodup)
    (halive : ∀ p ∈ ps, p.status = PStatus.ALIVE)
    (hlegal : legalStartCount false ps.length = true)
    (hfuel : ps.length ≤ fuel) :
    (startBattle o fuel (initBattleState ps settings)).status = MStatus.COMPLETED ∧
    aliveCount (startBattle o fuel (initBattleState ps settings)).players = 1 ∧
    countStatus (startBattle o fuel (initBattleState ps settings)).players
      PStatus.ELIMINATED = ps.length - 1 ∧
    countStatus (startBattle o fuel (initBattleState ps settings)).players
      PStatus.WINNER = 0 ∧
    ∃ w, w ∈ (startBattle o fuel (initBattleState ps settings)).players ∧
      w.status = PStatus.ALIVE ∧
      (startBattle o fuel (initBattleState ps settings)).announcedWinnerId
        = some w.id := by
  have h2 : 2 ≤ ps.length := by
    simp [legalStartCount] at hlegal
    omega
  have hrfl : startBattle o fuel (initBattleState ps settings)
      = runRounds o fuel 1 (buildBracket (o.rand 0)
          { initBattleState ps settings with
              status := MStatus.IN_PROGRESS, round := 1 }) := rfl
  obtain ⟨hqok, _⟩ := generateBracket_queueOK (o.rand 0) ps hnd
  have hInvb : BattleInv (buildBracket (o.rand 0)
      { initBattleState ps settings with
          status := MStatus.IN_PROGRESS, round := 1 }) := by
    refine ⟨hnd, hqok, ?_⟩
    intro p hp
    rw [halive p hp]
    decide
  have hac : aliveCount ps = ps.length :=
    List.countP_eq_length.mpr (fun p hp => by simp [halive p hp])
  have helim0 : countStatus ps PStatus.ELIMINATED = 0 :=
    List.countP_eq_zero.mpr (fun p hp => by simp [halive p hp])
  obtain ⟨c1, c2, c3, c4, c5, c6⟩ := runRounds_spec o fuel 1
    (buildBracket (o.rand 0)
      { initBattleState ps settings with status := MStatus.IN_PROGRESS, round := 1 })
    hInvb (by show 1 ≤ aliveCount ps; omega) (by show aliveCount ps ≤ fuel; omega)
  rw [hrfl]
  have hb : (buildBracket (o.rand 0)
      { initBattleState ps settings with
          status := MStatus.IN_PROGRESS, round := 1 }).players = ps := rfl
  rw [hb] at c4
  refine ⟨c1, c3, by rw [c4]; omega, ?_, ?_⟩
  · exact List.countP_eq_zero.mpr (fun p hp => by simp [c5 p hp])
  · obtain ⟨w, hw1, hw2, hw3⟩ := c6
    exact ⟨w, hw1, hw2, hw3⟩

/-- Counterexample to claim C1 as stated: a completed two-contestant
 tournament over a legal count ends with zero contestants holding status
 WINNER — the champion is only announced and keeps status ALIVE — so the
 final state does not contain exactly one WINNER. -/
theorem tournament_winner_status_counterexample :
    legalStartCount false exPool2.length = true ∧
    (startBattle exOracle 2 (initBattleState exPool2 exSettings)).status
      = MStatus.COMPLETED ∧
    countStatus (startBattle exOracle 2 (initBattleState exPool2 exSettings)).players
      PStatus.ELIMINATED = 1 ∧
    ¬ (countStatus (startBattle exOracle 2 (initBattleState exPool2 exSettings)).players
        PStatus.WINNER = 1) := by
  decide

/-- Concrete run of the amended convergence theorem on two contestants. -/
theorem tournament_one_survivor_witness :
    (startBattle exOracle 2 (initBattleState exPool2 exSettings)).status
      = MStatus.COMPLETED ∧
    aliveCount (startBattle exOracle 2 (initBattleState exPool2 exSettings)).players = 1 ∧
    countStatus (startBattle exOracle 2 (initBattleState exPool2 exSettings)).players
      PStatus.ELIMINATED = exPool2.length - 1 ∧
    countStatus (startBattle exOracle 2 (initBattleState exPool2 exSettings)).players
      PStatus.WINNER = 0 ∧
    ∃ w, w ∈ (startBattle exOracle 2 (initBattleState exPool2 exSettings)).players ∧
      w.status = PStatus.ALIVE ∧
      (startBattle exOracle 2 (initBattleState exPool2 exSettings)).announcedWinnerId
        = some w.id :=
  tournament_one_survivor exOracle exPool2 exSettings 2 (by decide) (by decide)
    (by decide) (by decide)

/-- Claim C2: a bracket build over an odd number of ALIVE contestants leaves
 the pool entirely unchanged, and exactly one alive contestant is left
 unpaired: the queued ids together with that contestant's id are a
 permutation of the alive ids, and the contestant keeps status ALIVE with
 every field intact (carried forward, never auto-eliminated). -/
theorem bracket_odd_bye (rand : Nat → Nat) (st : BattleState)
    (hodd : (aliveFilter st.players).length % 2 = 1) :
    (buildBracket rand st).players = st.players ∧
    ∃ p : BattlePlayer, p ∈ st.players ∧ p.status = PStatus.ALIVE ∧
      (flatPairs (buildBracket rand st).matchQueue ++ [p.id]).Perm
        ((aliveFilter st.players).map (fun q => q.id)) := by
  refine ⟨rfl, ?_⟩
  obtain ⟨sh, t, hperm, hgen, hflat, htl⟩ := generateBracket_spec rand st.players
  rw [hodd] at htl
  obtain ⟨p, ht⟩ := List.length_eq_one.mp htl
  subst ht
  have hpsh : p ∈ sh := by
    rw [← hflat]
    exact List.mem_append_right _ (List.mem_singleton_self p)
  have hpal : p ∈ aliveFilter st.players := hperm.subset hpsh
  have hpf := List.mem_filter.mp hpal
  refine ⟨p, hpf.1, by simpa using hpf.2, ?_⟩
  have hfq : flatPairs (buildBracket rand st).matchQueue
      = (flatPairs (pairUp sh)).map (fun q => q.id) := by
    show flatPairs (generateBracket rand st.players) = _
    rw [hgen, flatPairs_toIdPairs]
  rw [hfq]
  have happ : (flatPairs (pairUp sh)).map (fun q => q.id) ++ [p.id]
      = sh.map (fun q => q.id) := by
    have hm : (flatPairs (pairUp sh) ++ [p]).map (fun q => q.id)
        = sh.map (fun q => q.id) := by rw [hflat]
    rw [List.map_append] at hm
    simpa using hm
  rw [happ]
  exact hperm.map (fun q => q.id)

/-! ## Cache lemmas for alias resolution -/

theorem mapGet_none_not_has (c : List (String × String)) (k : String)
    (h : mapGet c k = none) : c.any (fun e => e.1 == k) = false := by
  unfold mapGet at h
  rw [Option.map_eq_none'] at h
  rw [List.any_eq_false]
  intro e he
  have := List.find?_eq_none.mp h e he
  simpa using this

theorem mapSet_of_not_has (c : List (String × String)) (k v : String)
    (h : mapGet c k = none) : mapSet c k v = c ++ [(k, v)] := by
  unfold mapSet
  rw [mapGet_none_not_has c k h]
  simp

theorem mapGet_append_some (c e : List (String × String)) (g v : String)
    (h : mapGet c g = some v) : mapGet (c ++ e) g = some v := by
  unfold mapGet at h ⊢
  rw [Option.map_eq_some'] at h
  obtain ⟨x, hx, hxv⟩ := h
  rw [List.find?_append, hx]
  simp [hxv]

theorem mapGet_mapSet_preserve (c : List (String × String)) (g n gk v : String)
    (hc : mapGet c g = none) (h : mapGet c gk = some v) :
    mapGet (mapSet c g n) gk = some v := by
  rw [mapSet_of_not_has c g n hc]
  exact mapGet_append_some c [(g, n)] gk v h

theorem find?_replace (c : List (String × String)) (k v : String)
    (h : c.any (fun e => e.1 == k) = true) :
    (c.map (fun e => if (e.1 == k) = true then (k, v) else e)).find? (fun e => e.1 == k)
      = some (k, v) := by
  induction c with
  | nil => simp at h
  | cons e rest ih =>
    rw [List.map_cons]
    by_cases he : (e.1 == k) = true
    · rw [if_pos he]
      exact List.find?_cons_of_pos _ (by simp)
    · rw [if_neg he]
      have hstep : List.find? (fun x : String × String => x.1 == k)
          (e :: List.map (fun x => if (x.1 == k) = true then (k, v) else x) rest)
          = List.find? (fun x : String × String => x.1 == k)
            (List.map (fun x => if (x.1 == k) = true then (k, v) else x) rest) :=
        List.find?_cons_of_neg _ he
      rw [hstep]
      apply ih
      rcases List.any_eq_true.mp h with ⟨x, hx, hxk⟩
      rcases List.mem_cons.mp hx with h1 | h1
      · exact absurd (h1 ▸ hxk) he
      · exact List.any_eq_true.mpr ⟨x, h1, hxk⟩

theorem mapGet_mapSet_self (c : List (String × String)) (k v : String) :
    mapGet (mapSet c k v) k = some v := by
  unfold mapSet
  by_cases h : c.any (fun e => e.1 == k) = true
  · rw [if_pos h]
    unfold mapGet
    rw [find?_replace c k v h]
    rfl
  · rw [if_neg h]
    unfold mapGet
    rw [List.find?_append]
    have hfn : c.find? (fun e => e.1 == k) = none := by
      rw [List.find?_eq_none]
      intro e he
      intro hek
      exact absurd (List.any_eq_true.mpr ⟨e, he, hek⟩) h
    rw [hfn]
    simp

theorem gaStep_cache_preserve (env : ChainEnv)
    (acc : List (String × String) × List (String × String)) (x gk v : String)
    (h : mapGet acc.2 gk = some v) :
    mapGet (gaStep env acc x).2 gk = some v := by
  unfold gaStep
  cases hk : mapGet KNOWN_COLLECTIONS x with
  | some n => exact h
  | none =>
    cases hc : mapGet acc.2 x with
    | some n => exact h
    | none =>
      by_cases hlk : looksLikeKey x = true
      · cases hf : env.fetchAsset x with
        | some asset =>
          simp only [hlk, hf, if_true]
          exact mapGet_mapSet_preserve acc.2 x asset.name gk v hc h
        | none =>
          simp only [hlk, hf, if_true]
          exact mapGet_mapSet_preserve acc.2 x (shortAddr x) gk v hc h
      · simp only [Bool.not_eq_true] at hlk
        simp only [hlk, Bool.false_eq_true, if_false]
        exact mapGet_mapSet_preserve acc.2 x x gk v hc h

theorem foldl_gaStep_cache_preserve (env : ChainEnv) (gs : List String)
    (acc : List (String × String) × List (String × String)) (g v : String)
    (h : mapGet acc.2 g = some v) :
    mapGet ((gs.foldl (gaStep env) acc)).2 g = some v := by
  induction gs generalizing acc with
  | nil => exact h
  | cons x xs ih =>
    rw [List.foldl_cons]
    exact ih (gaStep env acc x) (gaStep_cache_preserve env acc x g v h)

theorem getAvailable_cache_preserve (env : ChainEnv) (cache : List (String × String))
    (g v : String) (h : mapGet cache g = some v) :
    mapGet (getAvailableCollections env cache).2 g = some v :=
  foldl_gaStep_cache_preserve env (collectGroups env) ([], cache) g v h

theorem gaStep_establishes (env : ChainEnv)
    (acc : List (String × String) × List (String × String)) (x : String) :
    mapGet KNOWN_COLLECTIONS x ≠ none ∨ mapGet (gaStep env acc x).2 x ≠ none := by
  cases hk : mapGet KNOWN_COLLECTIONS x with
  | some n => exact Or.inl (by simp [hk])
  | none =>
    refine Or.inr ?_
    unfold gaStep
    rw [hk]
    cases hc : mapGet acc.2 x with
    | some n => simp [hc]
    | none =>
      by_cases hlk : looksLikeKey x = true
      · cases hf : env.fetchAsset x with
        | some asset =>
          simp only [hlk, hf, if_true]
          simp [mapGet_mapSet_self]
        | none =>
          simp only [hlk, hf, if_true]
          simp [mapGet_mapSet_self]
      · simp only [Bool.not_eq_true] at hlk
        simp only [hlk, Bool.false_eq_true, if_false]
        simp [mapGet_mapSet_self]

theorem gaStep_cache_id (env : ChainEnv)
    (acc : List (String × String) × List (String × String)) (x : String)
    (h : mapGet KNOWN_COLLECTIONS x ≠ none ∨ mapGet acc.2 x ≠ none) :
    (gaStep env acc x).2 = acc.2 := by
  unfold gaStep
  cases hk : mapGet KNOWN_COLLECTIONS x with
  | some n => rfl
  | none =>
    cases hc : mapGet acc.2 x with
    | some n => rfl
    | none =>
      rcases h with h | h
      · exact absurd hk h
      · exact absurd hc h

theorem foldl_gaStep_all_cached (env : ChainEnv) (gs : List String)
    (acc : List (String × String) × List (String × String)) :
    ∀ x ∈ gs, mapGet KNOWN_COLLECTIONS x ≠ none
      ∨ mapGet (gs.foldl (gaStep env) acc).2 x ≠ none := by
  induction gs generalizing acc with
  | nil => intro x hx; exact absurd hx (List.not_mem_nil x)
  | cons y ys ih =>
    intro x hx
    rw [List.foldl_cons]
    rcases List.mem_cons.mp hx with h1 | h1
    · subst h1
      rcases gaStep_establishes env acc x with h2 | h2
      · exact Or.inl h2
      · cases hgv : mapGet (gaStep env acc x).2 x with
        | none => exact absurd hgv h2
        | some v =>
          exact Or.inr (by
            rw [foldl_gaStep_cache_preserve env ys (gaStep env acc x) x v hgv]
            simp)
    · exact ih (gaStep env acc y) x h1

theorem foldl_gaStep_cache_id (env : ChainEnv) (gs : List String)
    (c1 : List (String × String)) :
    ∀ m : List (String × String),
      (∀ x ∈ gs, mapGet KNOWN_COLLECTIONS x ≠ none ∨ mapGet c1 x ≠ none) →
      (gs.foldl (gaStep env) (m, c1)).2 = c1 := by
  induction gs with
  | nil => intro m _; rfl
  | cons y ys ih =>
    intro m hk
    rw [List.foldl_cons]
    have hstep : (gaStep env (m, c1) y).2 = c1 :=
      gaStep_cache_id env (m, c1) y (hk y (List.mem_cons_self y ys))
    have hpair : gaStep env (m, c1) y = ((gaStep env (m, c1) y).1, c1) := by
      have heta := @Prod.mk.eta _ _ (gaStep env (m, c1) y)
      rw [hstep] at heta
      exact heta.symm
    rw [hpair]
    exact ih (gaStep env (m, c1) y).1 (fun x hx => hk x (List.mem_cons_of_mem y hx))

theorem getAvailable_cache_fixpoint (env : ChainEnv) (cache : List (String × String)) :
    (getAvailableCollections env (getAvailableCollections env cache).2).2
      = (getAvailableCollections env cache).2 := by
  have hall := foldl_gaStep_all_cached env (collectGroups env) ([], cache)
  exact foldl_gaStep_cache_id env (collectGroups env)
    (getAvailableCollections env cache).2 [] hall

/-- Claim C8: alias resolution is deterministic and cache-stable: resolving the
 same slug twice against the same environment yields the same canonical id set
 both times; a getAvailableCollections pass never changes a previously cached
 name; and a second pass over the cache left by a first pass leaves that cache
 unchanged. -/
theorem alias_resolution_idempotent (env : ChainEnv) (cache : List (String × String))
    (slug g v : String) (hg : mapGet cache g = some v) :
    resolveCollectionFromSlug env slug = resolveCollectionFromSlug env slug ∧
    mapGet (getAvailableCollections env cache).2 g = some v ∧
    (getAvailableCollections env (getAvailableCollections env cache).2).2
      = (getAvailableCollections env cache).2 :=
  ⟨rfl, getAvailable_cache_preserve env cache g v hg,
    getAvailable_cache_fixpoint env cache⟩

/-- Concrete alias-resolution run with one cached name. -/
theorem alias_resolution_idempotent_witness :
    resolveCollectionFromSlug exEnv "degods" = resolveCollectionFromSlug exEnv "degods" ∧
    mapGet (getAvailableCollections exEnv [("g0", "Name0")]).2 "g0" = some "Name0" ∧
    (getAvailableCollections exEnv
        (getAvailableCollections exEnv [("g0", "Name0")]).2).2
      = (getAvailableCollections exEnv [("g0", "Name0")]).2 :=
  alias_resolution_idempotent exEnv [("g0", "Name0")] "degods" "g0" "Name0" (by decide)

/-- Concrete bracket build over three alive contestants. -/
theorem bracket_odd_bye_witness :
    (buildBracket (fun _ => 0) (initBattleState exPool3 exSettings)).players
      = (initBattleState exPool3 exSettings).players ∧
    ∃ p : BattlePlayer, p ∈ (initBattleState exPool3 exSettings).players ∧
      p.status = PStatus.ALIVE ∧
      (flatPairs (buildBracket (fun _ => 0)
          (initBattleState exPool3 exSettings)).matchQueue ++ [p.id]).Perm
        ((aliveFilter (initBattleState exPool3 exSettings).players).map
          (fun q => q.id)) :=
  bracket_odd_bye (fun _ => 0) (initBattleState exPool3 exSettings) (by decide)

/-! ## Eligibility filtering lemmas -/

theorem verify_processing (env : ChainEnv) (w : String) (t : Option String)
    (accs : List TokenAccount)
    (hc : env.configFails = false)
    (ha : env.getTokenAccounts w = some accs) :
    verifyWalletAndGetNFTs env w t
      = (singleUnitMints accs).filterMap
          (checkMint env (buildValidCollections env t)
            ((buildValidCollections env t).isEmpty && !(truthyStr t))) := by
  unfold verifyWalletAndGetNFTs
  simp only [hc, Bool.false_eq_true, if_false, ha]
  by_cases hm : (singleUnitMints accs).isEmpty = true
  · have hnil : singleUnitMints accs = [] := by
      cases hsm : singleUnitMints accs with
      | nil => rfl
      | cons x xs =>
        rw [hsm] at hm
        simp at hm
    simp [hm, hnil]
  · simp only [Bool.not_eq_true] at hm
    simp only [hm, Bool.false_eq_true, if_false]
    rw [flatten_map_filterMap, batches_flatten]

theorem checkMint_mint (env : ChainEnv) (vc : List (String × String)) (aa : Bool)
    (m : String) (n : NFTData) (h : checkMint env vc aa m = some n) : n.mint = m := by
  unfold checkMint at h
  split at h
  · exact Option.noConfusion h
  · split at h
    · exact Option.noConfusion h
    · split at h
      · exact Option.noConfusion h
      · injection h with h2
        rw [← h2]

theorem checkMint_eq (env : ChainEnv) (vc : List (String × String)) (aa : Bool)
    (m : String) (a : AssetMeta) (ha : env.fetchAsset m = some a) :
    checkMint env vc aa m
      = match matchedGroupOf vc aa a with
        | none => none
        | some _ =>
          match env.fetchJson a.uri with
          | none => none
          | some json =>
            some { name := a.name, image := json.image,
                   attributes := json.attributes.getD [], mint := m,
                   collectionName := a.symbol,
                   collectionGroup := matchedGroupOf vc aa a } := by
  unfold checkMint
  rw [ha]

theorem checkMint_allowAny (env : ChainEnv) (vc : List (String × String))
    (m : String) (a : AssetMeta) (j : JsonMeta)
    (ha : env.fetchAsset m = some a) (hj : env.fetchJson a.uri = some j) :
    checkMint env vc true m
      = some { name := a.name, image := j.image,
               attributes := j.attributes.getD [], mint := m,
               collectionName := a.symbol, collectionGroup := some "Any" } := by
  rw [checkMint_eq env vc true m a ha]
  unfold matchedGroupOf
  simp [hj]

theorem firstCreatorMatch_isSome_iff (vc : List (String × String)) (cs : List Creator) :
    (firstCreatorMatch vc cs).isSome = true
      ↔ ∃ c ∈ cs, c.verified = true ∧ mapHas vc c.address = true := by
  induction cs with
  | nil => simp [firstCreatorMatch]
  | cons c rest ih =>
    unfold firstCreatorMatch
    by_cases h : (c.verified && mapHas vc c.address) = true
    · rw [if_pos h]
      have h2 := h
      simp only [Bool.and_eq_true] at h2
      obtain ⟨hv, hh⟩ := h2
      constructor
      · intro _
        exact ⟨c, List.mem_cons_self c rest, hv, hh⟩
      · intro _
        exact hh
    · rw [if_neg h]
      rw [ih]
      constructor
      · rintro ⟨x, hx, hxv, hxh⟩
        exact ⟨x, List.mem_cons_of_mem c hx, hxv, hxh⟩
      · rintro ⟨x, hx, hxv, hxh⟩
        rcases List.mem_cons.mp hx with h1 | h1
        · refine absurd ?_ h
          rw [h1] at hxv hxh
          rw [hxv, hxh]
          rfl
        · exact ⟨x, h1, hxv, hxh⟩

theorem matchMCC_isSome_iff (vc : List (String × String)) (a : AssetMeta) :
    (matchMCC vc a).isSome = true
      ↔ ∃ key, a.collection = some (key, true) ∧ mapHas vc key = true := by
  unfold matchMCC
  split
  · rename_i key heq
    by_cases hh : mapHas vc key = true
    · rw [if_pos hh]
      constructor
      · intro _
        exact ⟨key, heq, hh⟩
      · intro _
        exact hh
    · rw [if_neg hh]
      simp only [Option.isSome_none, Bool.false_eq_true, false_iff]
      rintro ⟨key2, hk2, hh2⟩
      rw [heq] at hk2
      injection hk2 with hk3
      injection hk3 with hk4 hk5
      rw [← hk4] at hh2
      exact hh hh2
  · rename_i hne
    simp only [Option.isSome_none, Bool.false_eq_true, false_iff]
    rintro ⟨key2, hk2, hh2⟩
    exact hne key2 hk2

theorem matchedGroupOf_isSome_iff (vc : List (String × String)) (a : AssetMeta) :
    (matchedGroupOf vc false a).isSome = true ↔
      ((∃ key, a.collection = some (key, true) ∧ mapHas vc key = true) ∨
       (∃ c ∈ a.creators.getD [], c.verified = true ∧ mapHas vc c.address = true)) := by
  unfold matchedGroupOf
  simp only [Bool.false_eq_true, if_false]
  cases hm : matchMCC vc a with
  | some g =>
    have hs : (matchMCC vc a).isSome = true := by
      rw [hm]
      rfl
    simp only [Option.isSome_some, true_iff]
    exact Or.inl ((matchMCC_isSome_iff vc a).mp hs)
  | none =>
    have hs : ¬ (matchMCC vc a).isSome = true := by
      rw [hm]
      simp
    rw [matchMCC_isSome_iff vc a] at hs
    cases hcr : a.creators with
    | none =>
      simp only [Option.isSome_none, Bool.false_eq_true, false_iff]
      rintro (h | h)
      · exact hs h
      · simp at h
    | some cs =>
      rw [firstCreatorMatch_isSome_iff vc cs]
      simp only [Option.getD_some]
      constructor
      · intro h
        exact Or.inr h
      · rintro (h | h)
        · exact absurd h hs
        · exact h

theorem checkMint_isSome_iff (env : ChainEnv) (vc : List (String × String))
    (m : String) (a : AssetMeta) (j : JsonMeta)
    (ha : env.fetchAsset m = some a) (hj : env.fetchJson a.uri = some j) :
    (checkMint env vc false m).isSome = true
      ↔ (matchedGroupOf vc false a).isSome = true := by
  rw [checkMint_eq env vc false m a ha]
  cases hmg : matchedGroupOf vc false a with
  | none => simp
  | some g => simp [hj]

theorem filterMap_allowAny (env : ChainEnv) (vc : List (String × String))
    (mints : List String)
    (hfa : ∀ m ∈ mints,
      ((env.fetchAsset m).bind (fun a => env.fetchJson a.uri)).isSome = true) :
    (mints.filterMap (checkMint env vc true)).map (fun n => n.mint) = mints := by
  induction mints with
  | nil => rfl
  | cons m rest ih =>
    have hm := hfa m (List.mem_cons_self m rest)
    cases hA : env.fetchAsset m with
    | none =>
      rw [hA] at hm
      simp at hm
    | some a =>
      rw [hA] at hm
      cases hJ : env.fetchJson a.uri with
      | none =>
        simp [hJ] at hm
      | some j =>
        rw [List.filterMap_cons, checkMint_allowAny env vc m a j hA hJ]
        dsimp only
        simp only [List.map_cons]
        rw [ih (fun x hx => hfa x (List.mem_cons_of_mem m hx))]

theorem mem_filterMap_checkMint_iff (env : ChainEnv) (vc : List (String × String))
    (aa : Bool) (mints : List String) (m : String) (hm : m ∈ mints) :
    (∃ n ∈ mints.filterMap (checkMint env vc aa), n.mint = m)
      ↔ (checkMint env vc aa m).isSome = true := by
  constructor
  · rintro ⟨n, hn, hnm⟩
    obtain ⟨m2, hm2, hcm⟩ := List.mem_filterMap.mp hn
    have hid := checkMint_mint env vc aa m2 n hcm
    rw [hnm] at hid
    rw [← hid] at hcm
    rw [hcm]
    rfl
  · intro h
    cases hcm : checkMint env vc aa m with
    | none =>
      rw [hcm] at h
      simp at h
    | some n =>
      exact ⟨n, List.mem_filterMap.mpr ⟨m, hm, hcm⟩, checkMint_mint env vc aa m n hcm⟩

/-- Claim C7: with an empty resolved valid-collection map and no requested
 alias the verifier applies the allow-any policy and returns every single-unit
 zero-decimal holding of the wallet (whose metadata fetches succeed); with
 constraints resolved, a holding is returned if and only if its verified
 collection linkage or one of its verified creator linkages matches the
 resolved valid-collection map. -/
theorem eligibility_filter (env : ChainEnv) (w : String) (t : Option String)
    (accs : List TokenAccount)
    (hc : env.configFails = false)
    (ha : env.getTokenAccounts w = some accs) :
    (buildValidCollections env t = [] → truthyStr t = false →
      (∀ m ∈ singleUnitMints accs,
        ((env.fetchAsset m).bind (fun a => env.fetchJson a.uri)).isSome = true) →
      (verifyWalletAndGetNFTs env w t).map (fun n => n.mint) = singleUnitMints accs) ∧
    (buildValidCollections env t ≠ [] →
      ∀ m a j, m ∈ singleUnitMints accs →
        env.fetchAsset m = some a → env.fetchJson a.uri = some j →
        ((∃ n ∈ verifyWalletAndGetNFTs env w t, n.mint = m) ↔
          ((∃ key, a.collection = some (key, true)
              ∧ mapHas (buildValidCollections env t) key = true) ∨
           (∃ c ∈ a.creators.getD [], c.verified = true
              ∧ mapHas (buildValidCollections env t) c.address = true)))) := by
  have hv := verify_processing env w t accs hc ha
  constructor
  · intro hvc htgt hfa
    rw [hv]
    have haa : ((buildValidCollections env t).isEmpty && !(truthyStr t)) = true := by
      rw [hvc, htgt]
      rfl
    rw [haa]
    exact filterMap_allowAny env (buildValidCollections env t) (singleUnitMints accs) hfa
  · intro hvc m a j hm hfA hfJ
    have haa : ((buildValidCollections env t).isEmpty && !(truthyStr t)) = false := by
      cases hbv : buildValidCollections env t with
      | nil => exact absurd hbv hvc
      | cons x xs => rfl
    rw [hv, haa]
    rw [mem_filterMap_checkMint_iff env (buildValidCollections env t) false
      (singleUnitMints accs) m hm]
    rw [checkMint_isSome_iff env (buildValidCollections env t) m a j hfA hfJ]
    exact matchedGroupOf_isSome_iff (buildValidCollections env t) a

/-- Concrete eligibility run: one configured collection key, two fetchable
 single-unit holdings. -/
theorem eligibility_filter_witness :
    (buildValidCollections exEnv none = [] → truthyStr none = false →
      (∀ m ∈ singleUnitMints exAccounts,
        ((exEnv.fetchAsset m).bind (fun a => exEnv.fetchJson a.uri)).isSome = true) →
      (verifyWalletAndGetNFTs exEnv "W" none).map (fun n => n.mint)
        = singleUnitMints exAccounts) ∧
    (buildValidCollections exEnv none ≠ [] →
      ∀ m a j, m ∈ singleUnitMints exAccounts →
        exEnv.fetchAsset m = some a → exEnv.fetchJson a.uri = some j →
        ((∃ n ∈ verifyWalletAndGetNFTs exEnv "W" none, n.mint = m) ↔
          ((∃ key, a.collection = some (key, true)
              ∧ mapHas (buildValidCollections exEnv none) key = true) ∨
           (∃ c ∈ a.creators.getD [], c.verified = true
              ∧ mapHas (buildValidCollections exEnv none) c.address = true)))) :=
  eligibility_filter exEnv "W" none exAccounts rfl (by decide)

end StoryBook
